import Mathlib

/-!
Shallow embedding of the MadTyping keyboard-input core (Rust sources
`src/platform/windows.rs`, `src/platform/mod.rs`, `src/ui.rs`, `src/app.rs`,
`src/config.rs`) and proofs about its specified behaviour.

Keyboard input, sleeps and window activation are side effects in the source;
here every operation is modelled as a pure function that returns the list of
emitted low-level events (key-down / key-up / unicode-down / unicode-up /
sleep) alongside its result.  The platform keyboard layout (`VkKeyScanW`) and
the window environment are parameters.
-/

namespace MadTyping

/-- Delay constant from `src/config.rs`: `CHAR_TYPE_DELAY_MS = 5`. -/
def CHAR_TYPE_DELAY_MS : Nat := 5

/-- Delay constant from `src/config.rs`: `FOCUS_DELAY_MS = 50`. -/
def FOCUS_DELAY_MS : Nat := 50

/-- Delay constant from `src/config.rs`: `CHAT_OPEN_DELAY_MS = 100`. -/
def CHAT_OPEN_DELAY_MS : Nat := 100

/-- Delay constant from `src/config.rs`: `AFTER_TYPE_DELAY_MS = 30`. -/
def AFTER_TYPE_DELAY_MS : Nat := 30

/-- Delay constant from `src/config.rs`: `AFTER_SEND_DELAY_MS = 50`. -/
def AFTER_SEND_DELAY_MS : Nat := 50

/-- Delay constant from `src/config.rs`: `KEY_PRESS_DELAY_MS = 10`. -/
def KEY_PRESS_DELAY_MS : Nat := 10

/-- Delay constant from `src/config.rs`: `SHIFT_KEY_DELAY_MS = 15`. -/
def SHIFT_KEY_DELAY_MS : Nat := 15

/-- Delay constant from `src/config.rs`: `WINDOW_FOCUS_DELAY_MS = 100`. -/
def WINDOW_FOCUS_DELAY_MS : Nat := 100

/-- Delay constant from `src/config.rs`: `UNICODE_KEY_DELAY_MS = 5`. -/
def UNICODE_KEY_DELAY_MS : Nat := 5

/-- Delay constant from `src/config.rs`: `NEXT_LINE_DELAY_MS = 100`. -/
def NEXT_LINE_DELAY_MS : Nat := 100

/-- Windows virtual-key code `VK_SHIFT` (0x10). -/
def VK_SHIFT : Nat := 16

/-- Windows virtual-key code `VK_RETURN` (0x0D). -/
def VK_RETURN : Nat := 13

/-- One observable action of the input driver: a synthetic key event posted
through `SendInput` (virtual-key down/up via scan codes, or a
`KEYEVENTF_UNICODE` down/up carrying a 16-bit scan value), or a
`thread::sleep` of the given number of milliseconds. -/
inductive Ev where
  | keyDown (vk : Nat)
  | keyUp (vk : Nat)
  | uniDown (scan : Nat)
  | uniUp (scan : Nat)
  | sleep (ms : Nat)
deriving DecidableEq, Repr

/-- Whether an event is a pure delay (no key event posted). -/
def Ev.isSleep : Ev → Bool
  | .sleep _ => true
  | _ => false

/-- The key events of a trace: everything except the sleeps. -/
def keysOf (tr : List Ev) : List Ev :=
  tr.filter (fun e => !e.isSleep)

/-- Embedding of `send_key_press` (windows.rs:202): down, dwell, up. -/
def send_key_press (vk : Nat) : List Ev :=
  [Ev.keyDown vk, Ev.sleep KEY_PRESS_DELAY_MS, Ev.keyUp vk]

/-- Embedding of `send_char` (windows.rs:209).  The Rust code computes
`VkKeyScanW(c as u16)`; the cast truncates the scalar value to its low
16 bits, modelled as `c.toNat % 65536`.  The layout is a parameter
`layout : Nat → Nat` returning the 16-bit pattern of the `SHORT` result of
`VkKeyScanW`; the failure value `-1` is the pattern `65535 = 0xFFFF`.
On success the low byte is the virtual key (`vk_result & 0xFF`) and bit 8 is
the shift flag (`(vk_result >> 8) & 1 != 0`).  On failure the character is
sent as a `KEYEVENTF_UNICODE` pair whose `wScan` field is again `c as u16`. -/
def send_char (layout : Nat → Nat) (c : Char) : List Ev :=
  (let v := layout (c.toNat % 65536)
   if v ≠ 65535 then
     let vk := v % 256
     let shift : Bool := v / 256 % 2 == 1
     (if shift then [Ev.keyDown VK_SHIFT, Ev.sleep SHIFT_KEY_DELAY_MS] else [])
       ++ send_key_press vk
       ++ (if shift then [Ev.sleep SHIFT_KEY_DELAY_MS, Ev.keyUp VK_SHIFT] else [])
   else
     [Ev.uniDown (c.toNat % 65536), Ev.sleep UNICODE_KEY_DELAY_MS,
      Ev.uniUp (c.toNat % 65536)])
  ++ [Ev.sleep CHAR_TYPE_DELAY_MS]

/-- Embedding of `type_text` (windows.rs:264): one `send_char` per character,
in order. -/
def type_text (layout : Nat → Nat) : List Char → List Ev
  | [] => []
  | c :: cs => send_char layout c ++ type_text layout cs

/-- The chat-open hotkey sequence of `send_text` (windows.rs:301-305):
Shift down, delay, press Enter, delay, Shift up. -/
def chat_open_events : List Ev :=
  [Ev.keyDown VK_SHIFT, Ev.sleep SHIFT_KEY_DELAY_MS]
    ++ send_key_press VK_RETURN
    ++ [Ev.sleep SHIFT_KEY_DELAY_MS, Ev.keyUp VK_SHIFT]

/-- Error values of `send_text`.  The source returns `Err(String)`; the two
messages "... is not running. Please start the application first." and
"Window ... not found." are modelled as the two constructors, each carrying
the window title interpolated into the message. -/
inductive SendError where
  | targetNotRunning (title : String)
  | windowNotFound (title : String)
deriving DecidableEq, Repr

/-- Embedding of `send_text` (windows.rs:278), the orchestrator the spec
calls `send_line`.  `running` is the result of the `is_window_running`
pre-check and `focused` the result of `focus_window`; both are environment
inputs.  On the success path `focus_window` itself sleeps
`WINDOW_FOCUS_DELAY_MS` before returning `true`, then `send_text` sleeps
`FOCUS_DELAY_MS`, emits the chat-open hotkey, waits, types the text, waits,
presses Enter to submit and waits again. -/
def send_text (running focused : Bool) (layout : Nat → Nat) (text : List Char)
    (title : String) : Except SendError Unit × List Ev :=
  if !running then
    (Except.error (SendError.targetNotRunning title), [])
  else if !focused then
    (Except.error (SendError.windowNotFound title), [])
  else
    (Except.ok (),
      [Ev.sleep WINDOW_FOCUS_DELAY_MS, Ev.sleep FOCUS_DELAY_MS]
        ++ chat_open_events
        ++ [Ev.sleep CHAT_OPEN_DELAY_MS]
        ++ type_text layout text
        ++ [Ev.sleep AFTER_TYPE_DELAY_MS]
        ++ send_key_press VK_RETURN
        ++ [Ev.sleep AFTER_SEND_DELAY_MS])

/-- Claim-level description of the key events encoding one character
(spec 4.4): a direct-mapped key needing shift is bracketed
Shift-down, key-down, key-up, Shift-up; one not needing shift is
key-down, key-up; an unmapped character is a unicode down/up pair. -/
def encodedKeys (layout : Nat → Nat) (c : Char) : List Ev :=
  let v := layout (c.toNat % 65536)
  if v ≠ 65535 then
    let vk := v % 256
    if v / 256 % 2 == 1 then
      [Ev.keyDown VK_SHIFT, Ev.keyDown vk, Ev.keyUp vk, Ev.keyUp VK_SHIFT]
    else
      [Ev.keyDown vk, Ev.keyUp vk]
  else
    [Ev.uniDown (c.toNat % 65536), Ev.uniUp (c.toNat % 65536)]

theorem keysOf_append (xs ys : List Ev) :
    keysOf (xs ++ ys) = keysOf xs ++ keysOf ys :=
  List.filter_append ..

theorem keysOf_nil : keysOf [] = [] := rfl

theorem keysOf_sleep_cons (ms : Nat) (tr : List Ev) :
    keysOf (Ev.sleep ms :: tr) = keysOf tr := rfl

theorem keysOf_keyDown_cons (vk : Nat) (tr : List Ev) :
    keysOf (Ev.keyDown vk :: tr) = Ev.keyDown vk :: keysOf tr := rfl

theorem keysOf_keyUp_cons (vk : Nat) (tr : List Ev) :
    keysOf (Ev.keyUp vk :: tr) = Ev.keyUp vk :: keysOf tr := rfl

theorem keysOf_uniDown_cons (scan : Nat) (tr : List Ev) :
    keysOf (Ev.uniDown scan :: tr) = Ev.uniDown scan :: keysOf tr := rfl

theorem keysOf_uniUp_cons (scan : Nat) (tr : List Ev) :
    keysOf (Ev.uniUp scan :: tr) = Ev.uniUp scan :: keysOf tr := rfl

theorem keysOf_send_char (layout : Nat → Nat) (c : Char) :
    keysOf (send_char layout c) = encodedKeys layout c := by
  by_cases h : layout (c.toNat % 65536) = 65535
  · simp [send_char, encodedKeys, h, keysOf_append, keysOf_sleep_cons,
      keysOf_uniDown_cons, keysOf_uniUp_cons, keysOf_nil]
  · cases hs : layout (c.toNat % 65536) / 256 % 2 == 1 <;>
      simp [send_char, encodedKeys, h, hs, send_key_press, keysOf_append,
        keysOf_sleep_cons, keysOf_keyDown_cons, keysOf_keyUp_cons, keysOf_nil]

theorem keysOf_type_text (layout : Nat → Nat) (cs : List Char) :
    keysOf (type_text layout cs) = (cs.map (encodedKeys layout)).flatten := by
  induction cs with
  | nil => rfl
  | cons c cs ih =>
      simp [type_text, keysOf_append, keysOf_send_char, ih]

/-- C1: a failed `is_window_running` pre-check makes `send_text` return the
`TargetNotRunning` error, and a failed `focus_window` step makes it return
the `WindowNotFound` error; in both cases the emitted trace is empty, so in
particular zero key events occur before the error return. -/
theorem c1_failure_before_activation_emits_nothing
    (layout : Nat → Nat) (text : List Char) (title : String) (focused : Bool) :
    send_text false focused layout text title
        = (Except.error (SendError.targetNotRunning title), [])
      ∧ send_text true false layout text title
        = (Except.error (SendError.windowNotFound title), []) :=
  ⟨rfl, rfl⟩

/-- C2: on the success path the key events of `send_text` are exactly the
chat-open hotkey Shift-down, Enter-down, Enter-up, Shift-up, then the encoded
events of each character of the text in order (Shift-bracketed key pair,
plain key pair, or unicode pair), then the Enter-down, Enter-up submit, and
nothing else. -/
theorem c2_success_trace_is_hotkey_text_submit
    (layout : Nat → Nat) (text : List Char) (title : String) :
    keysOf (send_text true true layout text title).2
      = [Ev.keyDown VK_SHIFT, Ev.keyDown VK_RETURN,
         Ev.keyUp VK_RETURN, Ev.keyUp VK_SHIFT]
          ++ (text.map (encodedKeys layout)).flatten
          ++ [Ev.keyDown VK_RETURN, Ev.keyUp VK_RETURN] := by
  simp [send_text, keysOf_append, keysOf_type_text, chat_open_events,
    send_key_press, keysOf_sleep_cons, keysOf_keyDown_cons, keysOf_keyUp_cons,
    keysOf_nil]

/-- C8: `type_text` on the empty string emits no events at all, and in
general performs exactly one `send_char` per character of its input, in input
order, with no batching. -/
theorem c8_type_text_empty_and_per_char (layout : Nat → Nat) :
    type_text layout [] = []
      ∧ ∀ cs : List Char,
          type_text layout cs = (cs.map (send_char layout)).flatten := by
  refine ⟨rfl, ?_⟩
  intro cs
  induction cs with
  | nil => rfl
  | cons c cs ih => simp [type_text, ih]

/-- Key identity space for the held-keys analysis: virtual keys are their own
code (always < 65536 in emitted traces), unicode scan values are shifted past
them so the two families never collide. -/
def uniKey (scan : Nat) : Nat := 65536 + scan

/-- Run a trace against a set of currently-held keys.  A down event for a key
already held, or an up event for a key not held, yields `none` (the invariant
is broken); sleeps change nothing. -/
def runHeld : List Nat → List Ev → Option (List Nat)
  | held, [] => some held
  | held, Ev.keyDown vk :: rest =>
      if vk ∈ held then none else runHeld (vk :: held) rest
  | held, Ev.keyUp vk :: rest =>
      if vk ∈ held then runHeld (held.erase vk) rest else none
  | held, Ev.uniDown scan :: rest =>
      if uniKey scan ∈ held then none
      else runHeld (uniKey scan :: held) rest
  | held, Ev.uniUp scan :: rest =>
      if uniKey scan ∈ held then runHeld (held.erase (uniKey scan)) rest
      else none
  | held, Ev.sleep _ :: rest => runHeld held rest

/-- A trace is balanced when, starting from no held keys, no key is ever
pushed down twice without an intervening up, no key is released while not
held, and every key is released by the end. -/
def balanced (tr : List Ev) : Prop := runHeld [] tr = some []

theorem runHeld_append (xs ys : List Ev) :
    ∀ held, runHeld held (xs ++ ys)
      = (runHeld held xs).bind (fun h2 => runHeld h2 ys) := by
  induction xs with
  | nil => intro held; simp [runHeld]
  | cons e rest ih =>
      intro held
      cases e <;> simp only [List.cons_append, runHeld] <;>
        (try split) <;> simp [ih]

theorem balanced_append {xs ys : List Ev} (hx : balanced xs)
    (hy : balanced ys) : balanced (xs ++ ys) := by
  unfold balanced at *
  rw [runHeld_append, hx]
  simpa using hy

theorem balanced_send_key_press (vk : Nat) :
    balanced (send_key_press vk) := by
  simp [balanced, send_key_press, runHeld, List.erase_cons_head]

/-- Layouts that can arise from `VkKeyScanW`: the base virtual key of a
successfully mapped character is never the Shift key itself (Shift alone
produces no character). -/
def layoutOk (layout : Nat → Nat) : Prop :=
  ∀ x, layout x ≠ 65535 → layout x / 256 % 2 = 1 →
    layout x % 256 ≠ VK_SHIFT

theorem balanced_send_char (layout : Nat → Nat) (hok : layoutOk layout)
    (c : Char) : balanced (send_char layout c) := by
  by_cases h : layout (c.toNat % 65536) = 65535
  · simp [balanced, send_char, h, runHeld, List.erase_cons_head]
  · cases hs : layout (c.toNat % 65536) / 256 % 2 == 1
    · simp [balanced, send_char, h, hs, send_key_press, runHeld,
        List.erase_cons_head]
    · have hvk : layout (c.toNat % 65536) % 256 ≠ 16 :=
        hok _ h (by simpa using hs)
      simp [balanced, send_char, h, hs, send_key_press, runHeld, VK_SHIFT,
        List.erase_cons_head, hvk]

theorem balanced_type_text (layout : Nat → Nat) (hok : layoutOk layout)
    (cs : List Char) : balanced (type_text layout cs) := by
  induction cs with
  | nil => rfl
  | cons c cs ih =>
      exact balanced_append (balanced_send_char layout hok c) ih

theorem balanced_chat_open : balanced chat_open_events := by
  simp [balanced, chat_open_events, send_key_press, runHeld, VK_SHIFT,
    VK_RETURN, List.erase_cons_head]

/-- C3: with any keyboard layout whose direct mappings never use Shift as the
base key (true of `VkKeyScanW`), every per-character event block of
`send_char` is balanced — each down is matched by its up before the next
character begins — and the whole successful `send_text` trace is balanced:
no key is ever pushed down twice without an intervening up, the only
held-across key being the Shift bracket, which the balance relation admits
because Shift is released inside the same bracketed block. -/
theorem c3_no_overlapping_downs (layout : Nat → Nat) (hok : layoutOk layout)
    (text : List Char) (title : String) :
    (∀ c ∈ text, balanced (send_char layout c))
      ∧ balanced (send_text true true layout text title).2 := by
  constructor
  · intro c _
    exact balanced_send_char layout hok c
  · have h1 : balanced [Ev.sleep WINDOW_FOCUS_DELAY_MS,
        Ev.sleep FOCUS_DELAY_MS] := rfl
    have h3 : balanced [Ev.sleep CHAT_OPEN_DELAY_MS] := rfl
    have h5 : balanced [Ev.sleep AFTER_TYPE_DELAY_MS] := rfl
    have h7 : balanced [Ev.sleep AFTER_SEND_DELAY_MS] := rfl
    simp only [send_text, Bool.not_true, Bool.false_eq_true, if_false]
    exact balanced_append (balanced_append (balanced_append (balanced_append
      (balanced_append (balanced_append h1 balanced_chat_open) h3)
      (balanced_type_text layout hok text)) h5)
      (balanced_send_key_press VK_RETURN)) h7

theorem c3_no_overlapping_downs_witness :
    layoutOk (fun _ => 65535)
      ∧ balanced (send_text true true (fun _ => 65535) ['a'] "Target").2 :=
  have hok : layoutOk (fun _ => 65535) := fun _ h _ => absurd rfl h
  ⟨hok, (c3_no_overlapping_downs (fun _ => 65535) hok ['a'] "Target").2⟩

/-- C4 (counterexample): for the non-BMP scalar U+1F600 (code point 128512)
and a layout with no direct mapping, the fallback pair carries
62976 = 128512 mod 2^16, not the character's code point — the `c as u16`
casts in `send_char` truncate both the layout lookup and the `wScan` field,
so non-BMP scalars are not emitted faithfully. -/
theorem c4_counterexample_non_bmp_truncated :
    keysOf (send_char (fun _ => 65535) '😀')
        = [Ev.uniDown 62976, Ev.uniUp 62976]
      ∧ Char.toNat '😀' = 128512
      ∧ (62976 : Nat) ≠ 128512 := by
  refine ⟨by decide, rfl, by decide⟩

/-- C4 (amended): encoding is total — every character yields either a
direct-mapped key block or a unicode fallback pair, never a failure — but
the fallback pair carries the character's code point reduced modulo 2^16
(the low 16 bits produced by the `c as u16` cast), which equals the code
point itself exactly for BMP scalar values. -/
theorem c4_encoding_total_fallback_mod_2_16 (layout : Nat → Nat) (c : Char) :
    keysOf (send_char layout c) = encodedKeys layout c
      ∧ (layout (c.toNat % 65536) = 65535 →
          keysOf (send_char layout c)
            = [Ev.uniDown (c.toNat % 65536), Ev.uniUp (c.toNat % 65536)])
      ∧ keysOf (send_char layout c) ≠ [] := by
  refine ⟨keysOf_send_char layout c, ?_, ?_⟩
  · intro h
    rw [keysOf_send_char, encodedKeys]
    simp [h]
  · rw [keysOf_send_char, encodedKeys]
    by_cases h : layout (c.toNat % 65536) = 65535
    · simp [h]
    · cases hs : layout (c.toNat % 65536) / 256 % 2 == 1 <;> simp [h, hs]

theorem c4_encoding_total_witness :
    keysOf (send_char (fun _ => 65535) 'a')
      = [Ev.uniDown (Char.toNat 'a' % 65536),
         Ev.uniUp (Char.toNat 'a' % 65536)] :=
  (c4_encoding_total_fallback_mod_2_16 (fun _ => 65535) 'a').2.1 rfl

/-- Outcome of one run of the batch sender `send_all_lines` (ui.rs:328): the
Rust function returns `()` in all cases, but takes one of three exit paths —
all lines sent, cancelled by an Esc keypress, or stopped by a failed send. -/
inductive BatchOutcome where
  | done
  | cancelled
  | failed (e : SendError)
deriving DecidableEq, Repr

/-- Embedding of the loop body of `send_all_lines` (ui.rs:333-367) from
iteration `i` on.  `pollEsc i` is the environment answer to the 10ms
`poll`/`read` Esc check performed before line `i`; `sendRes i` is the result
of the `send_text` call for line `i`.  Returns the indices of the lines for
which `send_text` was invoked, in order, together with the exit path.
Cancellation is polled before each line and nowhere else; a successful send
sleeps `NEXT_LINE_DELAY_MS` and continues; an error returns at once. -/
def send_lines_from (pollEsc : Nat → Bool)
    (sendRes : Nat → Except SendError Unit) :
    Nat → List String → List Nat × BatchOutcome
  | _, [] => ([], BatchOutcome.done)
  | i, _ :: rest =>
      if pollEsc i then ([], BatchOutcome.cancelled)
      else
        match sendRes i with
        | Except.ok _ =>
            let p := send_lines_from pollEsc sendRes (i + 1) rest
            (i :: p.1, p.2)
        | Except.error e => ([i], BatchOutcome.failed e)

/-- Embedding of `send_all_lines` (ui.rs:328): the loop starting at line 0. -/
def send_all_lines (pollEsc : Nat → Bool)
    (sendRes : Nat → Except SendError Unit) (lines : List String) :
    List Nat × BatchOutcome :=
  send_lines_from pollEsc sendRes 0 lines

theorem map_add_range_succ (i k : Nat) :
    List.map (fun j => i + j) (List.range (k + 1))
      = i :: List.map (fun j => i + 1 + j) (List.range k) := by
  rw [List.range_succ_eq_map]
  simp only [List.map_cons, List.map_map, Nat.add_zero, List.cons.injEq,
    true_and]
  apply List.map_congr_left
  intro a _
  simp [Function.comp]
  omega

theorem send_lines_from_cancel (pollEsc : Nat → Bool)
    (sendRes : Nat → Except SendError Unit) (k : Nat) :
    ∀ (i : Nat) (ls : List String), k < ls.length →
      (∀ j, j < k → pollEsc (i + j) = false) →
      pollEsc (i + k) = true →
      (∀ j, j < k → sendRes (i + j) = Except.ok ()) →
      send_lines_from pollEsc sendRes i ls
        = ((List.range k).map (fun j => i + j), BatchOutcome.cancelled) := by
  induction k with
  | zero =>
      intro i ls hlen hpoll hcancel hok
      cases ls with
      | nil => simp at hlen
      | cons l rest =>
          have hp : pollEsc i = true := by simpa using hcancel
          simp [send_lines_from, hp]
  | succ k ih =>
      intro i ls hlen hpoll hcancel hok
      cases ls with
      | nil => simp at hlen
      | cons l rest =>
          have hp0 : pollEsc i = false := by
            simpa using hpoll 0 (Nat.succ_pos k)
          have hs0 : sendRes i = Except.ok () := by
            simpa using hok 0 (Nat.succ_pos k)
          have hrest := ih (i + 1) rest (by simpa using hlen)
            (fun j hj => by
              have h := hpoll (j + 1) (Nat.succ_lt_succ hj)
              simpa [Nat.add_comm, Nat.add_left_comm, Nat.add_assoc] using h)
            (by simpa [Nat.add_comm, Nat.add_left_comm, Nat.add_assoc]
              using hcancel)
            (fun j hj => by
              have h := hok (j + 1) (Nat.succ_lt_succ hj)
              simpa [Nat.add_comm, Nat.add_left_comm, Nat.add_assoc] using h)
          simp only [send_lines_from, hp0, hs0, Bool.false_eq_true, if_false,
            hrest]
          rw [map_add_range_succ i k]

/-- C5: if the Esc poll is false before each of the first `k` lines, those
sends all succeed, and the poll before line `k + 1` (index `k`) detects Esc,
then the batch invokes `send_text` for exactly the first `k` lines, sends
nothing further, and exits by the cancel path, which is not an error. -/
theorem c5_cancel_between_lines (pollEsc : Nat → Bool)
    (sendRes : Nat → Except SendError Unit) (lines : List String) (k : Nat)
    (hlen : k < lines.length)
    (hpoll : ∀ j, j < k → pollEsc j = false)
    (hcancel : pollEsc k = true)
    (hok : ∀ j, j < k → sendRes j = Except.ok ()) :
    send_all_lines pollEsc sendRes lines
      = (List.range k, BatchOutcome.cancelled) := by
  have h := send_lines_from_cancel pollEsc sendRes k 0 lines hlen
    (by simpa using hpoll) (by simpa using hcancel) (by simpa using hok)
  simpa [send_all_lines] using h

theorem c5_cancel_between_lines_witness :
    send_all_lines (fun j => j == 2) (fun _ => Except.ok ())
        ["a", "b", "c", "d", "e"]
      = (List.range 2, BatchOutcome.cancelled) :=
  c5_cancel_between_lines (fun j => j == 2) (fun _ => Except.ok ())
    ["a", "b", "c", "d", "e"] 2 (by decide) (by decide) (by decide)
    (fun _ _ => rfl)

theorem send_lines_from_error (pollEsc : Nat → Bool)
    (sendRes : Nat → Except SendError Unit) (e : SendError) (k : Nat) :
    ∀ (i : Nat) (ls : List String), k < ls.length →
      (∀ j, j ≤ k → pollEsc (i + j) = false) →
      (∀ j, j < k → sendRes (i + j) = Except.ok ()) →
      sendRes (i + k) = Except.error e →
      send_lines_from pollEsc sendRes i ls
        = ((List.range (k + 1)).map (fun j => i + j),
           BatchOutcome.failed e) := by
  induction k with
  | zero =>
      intro i ls hlen hpoll hok herr
      cases ls with
      | nil => simp at hlen
      | cons l rest =>
          have hp : pollEsc i = false := by simpa using hpoll 0 (Nat.le_refl 0)
          have he : sendRes i = Except.error e := by simpa using herr
          simp [send_lines_from, hp, he, List.range_succ]
  | succ k ih =>
      intro i ls hlen hpoll hok herr
      cases ls with
      | nil => simp at hlen
      | cons l rest =>
          have hp0 : pollEsc i = false := by
            simpa using hpoll 0 (Nat.zero_le _)
          have hs0 : sendRes i = Except.ok () := by
            simpa using hok 0 (Nat.succ_pos k)
          have hrest := ih (i + 1) rest (by simpa using hlen)
            (fun j hj => by
              have h := hpoll (j + 1) (Nat.succ_le_succ hj)
              simpa [Nat.add_comm, Nat.add_left_comm, Nat.add_assoc] using h)
            (fun j hj => by
              have h := hok (j + 1) (Nat.succ_lt_succ hj)
              simpa [Nat.add_comm, Nat.add_left_comm, Nat.add_assoc] using h)
            (by simpa [Nat.add_comm, Nat.add_left_comm, Nat.add_assoc]
              using herr)
          simp only [send_lines_from, hp0, hs0, Bool.false_eq_true, if_false,
            hrest]
          rw [map_add_range_succ i (k + 1)]

/-- C6: if `send_text` fails on line `k` of a batch (all earlier lines
having succeeded and no cancel having been polled), the batch stops at once:
the set of invoked lines is exactly 0..k — line `k` is attempted once, never
retried, and no later line is attempted — and the batch exits by the
failure path. -/
theorem c6_failed_send_aborts_batch (pollEsc : Nat → Bool)
    (sendRes : Nat → Except SendError Unit) (lines : List String)
    (k : Nat) (e : SendError)
    (hlen : k < lines.length)
    (hpoll : ∀ j, j ≤ k → pollEsc j = false)
    (hok : ∀ j, j < k → sendRes j = Except.ok ())
    (herr : sendRes k = Except.error e) :
    send_all_lines pollEsc sendRes lines
      = (List.range (k + 1), BatchOutcome.failed e) := by
  have h := send_lines_from_error pollEsc sendRes e k 0 lines hlen
    (by simpa using hpoll) (by simpa using hok) (by simpa using herr)
  simpa [send_all_lines] using h

theorem c6_failed_send_aborts_batch_witness :
    send_all_lines (fun _ => false)
        (fun j => if j == 1 then
            Except.error (SendError.targetNotRunning "Target")
          else Except.ok ())
        ["a", "b", "c", "d"]
      = (List.range 2,
         BatchOutcome.failed (SendError.targetNotRunning "Target")) :=
  c6_failed_send_aborts_batch (fun _ => false)
    (fun j => if j == 1 then
        Except.error (SendError.targetNotRunning "Target")
      else Except.ok ())
    ["a", "b", "c", "d"] 1 (SendError.targetNotRunning "Target")
    (by decide) (fun _ _ => rfl)
    (fun j hj => by
      have hj0 : j = 0 := Nat.lt_one_iff.mp hj
      subst hj0
      rfl)
    rfl

/-- Embedding of Rust's `str::contains` substring test on character lists:
true when `needle` occurs contiguously inside the scanned list. -/
def strContains (needle : List Char) : List Char → Bool
  | [] => needle.isEmpty
  | c :: rest => needle.isPrefixOf (c :: rest) || strContains needle rest

theorem strContains_iff (needle hay : List Char) :
    strContains needle hay = true ↔ needle <:+: hay := by
  induction hay with
  | nil =>
      simp [strContains, List.isEmpty_iff]
  | cons c rest ih =>
      simp [strContains, Bool.or_eq_true, List.isPrefixOf_iff_prefix, ih,
        List.infix_cons_iff]

/-- Embedding of the `EnumWindows` callback loop of `is_window_running`
(windows.rs:68-85).  Each window is modelled by its full title; the
`GetWindowTextW` read into a 256-unit buffer is the 256-element truncation,
a zero-length read (`len == 0`, unreadable title) is the empty list, and
`lower` is the case-folding of `to_lowercase`.  The callback returns
`BOOL(0)` (stop) at the first window whose truncated, lowercased title
contains the already-lowercased search term, and `BOOL(1)` (continue)
otherwise. -/
def window_scan (lower : List Char → List Char) (term : List Char) :
    List (List Char) → Bool
  | [] => false
  | w :: rest =>
      if 0 < (w.take 256).length
          && strContains term (lower (w.take 256)) then true
      else window_scan lower term rest

/-- Embedding of `is_window_running` (windows.rs:54): lowercase the search
term once, then scan the enumerated windows. -/
def is_window_running (lower : List Char → List Char)
    (windows : List (List Char)) (target : List Char) : Bool :=
  window_scan lower (lower target) windows

/-- C7: `is_window_running` returns true exactly when some enumerated window
has a readable (nonempty after truncation to the 256-unit buffer) title
whose lowercased truncation contains the lowercased search target as a
contiguous substring.  Windows whose title cannot be read never match, and
the claim holds for every case-folding function and window list — the scan
inspects state only. -/
theorem c7_is_window_running_iff (lower : List Char → List Char)
    (windows : List (List Char)) (target : List Char) :
    is_window_running lower windows target = true
      ↔ ∃ w ∈ windows, w.take 256 ≠ []
          ∧ lower target <:+: lower (w.take 256) := by
  unfold is_window_running
  induction windows with
  | nil => simp [window_scan]
  | cons w rest ih =>
      by_cases h : (0 < (w.take 256).length
          && strContains (lower target) (lower (w.take 256))) = true
      · rw [window_scan, if_pos h]
        simp only [Bool.and_eq_true, decide_eq_true_eq, strContains_iff,
          Nat.lt_iff_add_one_le, Nat.zero_add] at h
        simp only [true_iff]
        refine ⟨w, List.mem_cons_self w rest, ?_, h.2⟩
        intro hnil
        rw [hnil] at h
        simp at h
      · rw [window_scan, if_neg h]
        rw [ih]
        simp only [Bool.and_eq_true, decide_eq_true_eq,
          strContains_iff, not_and] at h
        constructor
        · rintro ⟨v, hv, hne, hinf⟩
          exact ⟨v, List.mem_cons_of_mem w hv, hne, hinf⟩
        · rintro ⟨v, hv, hne, hinf⟩
          rcases List.mem_cons.mp hv with hvw | hvr
          · subst hvw
            exfalso
            exact absurd hinf (h (by
              cases hq : (v.take 256).length with
              | zero => exact absurd (List.length_eq_zero.mp hq) hne
              | succ n => omega))
          · exact ⟨v, hvr, hne, hinf⟩

/-- Non-Windows stub from `src/platform/mod.rs:19`: always answers `true`. -/
def stub_is_window_running (_title : String) : Bool := true

/-- Non-Windows stub from `src/platform/mod.rs:24`: always answers `true`. -/
def stub_focus_window (_title : String) : Bool := true

/-- Non-Windows stub from `src/platform/mod.rs:14`: always answers `true`. -/
def stub_is_window_focused (_title : String) : Bool := true

/-- Non-Windows stub from `src/platform/mod.rs:29`: always fails with the
unsupported-platform message and never emits a key event. -/
def stub_send_text (_text _title : String) : Except String Unit × List Ev :=
  (Except.error "Keyboard simulation only supported on Windows", [])

/-- C9 (counterexample): on a non-Windows platform the auxiliary queries do
not surface failure — the `is_window_running` and `focus_window` stubs
answer `true` (success) for any title. -/
theorem c9_counterexample_stub_queries_report_success :
    stub_is_window_running "Target" = true
      ∧ stub_focus_window "Target" = true
      ∧ stub_is_window_focused "Target" = true :=
  ⟨rfl, rfl, rfl⟩

/-- C9 (amended): on a non-Windows platform `send_text` always returns the
descriptive unsupported-platform error and emits zero key events, but the
auxiliary queries `is_window_running`, `focus_window` and
`is_window_focused` are stubbed to report success (`true`) rather than
failure. -/
theorem c9_stub_send_text_fails_queries_succeed (text title s : String) :
    stub_send_text text title
        = (Except.error "Keyboard simulation only supported on Windows", [])
      ∧ stub_is_window_running s = true
      ∧ stub_focus_window s = true
      ∧ stub_is_window_focused s = true :=
  ⟨rfl, rfl, rfl, rfl⟩

/-- Embedding of `TextFile` (files.rs:16): the filename (as characters, for
the case-insensitive search filter) and the non-empty trimmed lines.  The
path field plays no role in the browser-state claims. -/
structure TextFile where
  name : List Char
  lines : List String
deriving DecidableEq, Repr

/-- Embedding of `App` (app.rs:12): the discovered files, the indices of
those matching the current search, the selection index into the filtered
list, the search query, and the error message. -/
structure App where
  files : List TextFile
  filtered_indices : List Nat
  selected_index : Nat
  search_query : List Char
  error_message : Option String
deriving DecidableEq, Repr

/-- Embedding of `App::new` (app.rs:27): all indices pass the empty filter,
selection starts at 0. -/
def App.new (files : List TextFile) : App :=
  { files := files
    filtered_indices := List.range files.length
    selected_index := 0
    search_query := []
    error_message := none }

/-- Embedding of `App::update_filter` (app.rs:39): keep the indices of files
whose lowercased name contains the lowercased query (or all of them for an
empty query), then reset the selection to 0 when it fell out of bounds.
`lower` is the case-folding of `to_lowercase`. -/
def App.update_filter (lower : List Char → List Char) (a : App) : App :=
  let query := lower a.search_query
  let fi := (a.files.enum.filter
      (fun p => query.isEmpty || strContains query (lower p.2.name))).map
    Prod.fst
  { a with
    filtered_indices := fi
    selected_index :=
      if fi.length ≤ a.selected_index then 0 else a.selected_index }

/-- Embedding of `App::move_up` (app.rs:55): wraps to the bottom. -/
def App.move_up (a : App) : App :=
  if a.filtered_indices.isEmpty then a
  else if 0 < a.selected_index then
    { a with selected_index := a.selected_index - 1 }
  else
    { a with selected_index := a.filtered_indices.length - 1 }

/-- Embedding of `App::move_down` (app.rs:67): wraps to the top. -/
def App.move_down (a : App) : App :=
  if a.filtered_indices.isEmpty then a
  else if a.selected_index < a.filtered_indices.length - 1 then
    { a with selected_index := a.selected_index + 1 }
  else
    { a with selected_index := 0 }

/-- Embedding of `App::get_selected` (app.rs:79): look the selection up in
the filtered indices, then that index up in the files. -/
def App.get_selected (a : App) : Option TextFile :=
  (a.filtered_indices.get? a.selected_index).bind fun i => a.files.get? i

/-- Embedding of `App::filtered_count` (app.rs:144). -/
def App.filtered_count (a : App) : Nat :=
  a.filtered_indices.length

/-- Embedding of `App::add_search_char` (app.rs:127): push then refilter. -/
def App.add_search_char (lower : List Char → List Char) (a : App)
    (c : Char) : App :=
  App.update_filter lower { a with search_query := a.search_query ++ [c] }

/-- Embedding of `App::remove_search_char` (app.rs:133): pop then
refilter. -/
def App.remove_search_char (lower : List Char → List Char) (a : App) : App :=
  App.update_filter lower { a with search_query := a.search_query.dropLast }

/-- Embedding of the successful branch of `App::refresh_files` (app.rs:110):
`files::discover` succeeded with `new_files`; the state is rebuilt as in
`App::new` (error message untouched) and the reported change count is the
source's saturating-subtraction formula.  When `discover` fails, the `?`
operator returns before any field is written, so the state is unchanged. -/
def App.refresh_files (a : App) (new_files : List TextFile) : App × Nat :=
  ({ a with
      files := new_files
      search_query := []
      filtered_indices := List.range new_files.length
      selected_index := 0 },
    new_files.length - Nat.min a.files.length new_files.length
      + (a.files.length - Nat.min new_files.length a.files.length))

/-- The browser-state invariant of C10: every filtered index is a valid file
index, and the selection is 0 when the filtered list is empty, in range
otherwise. -/
def App.Inv (a : App) : Prop :=
  (∀ i ∈ a.filtered_indices, i < a.files.length)
    ∧ (a.filtered_indices = [] → a.selected_index = 0)
    ∧ (a.filtered_indices ≠ [] →
        a.selected_index < a.filtered_indices.length)

/-- States reachable from `App::new` by the browser operations, for a fixed
case-folding function. -/
inductive Reachable (lower : List Char → List Char) : App → Prop where
  | new (files : List TextFile) : Reachable lower (App.new files)
  | up {a : App} : Reachable lower a → Reachable lower a.move_up
  | down {a : App} : Reachable lower a → Reachable lower a.move_down
  | add {a : App} (c : Char) : Reachable lower a →
      Reachable lower (App.add_search_char lower a c)
  | remove {a : App} : Reachable lower a →
      Reachable lower (App.remove_search_char lower a)
  | refresh {a : App} (new_files : List TextFile) : Reachable lower a →
      Reachable lower (a.refresh_files new_files).1

theorem inv_new (files : List TextFile) : (App.new files).Inv := by
  refine ⟨?_, ?_, ?_⟩
  · intro i hi
    simpa [App.new] using List.mem_range.mp (by simpa [App.new] using hi)
  · intro _
    rfl
  · intro h
    simp only [App.new] at h ⊢
    have : files.length ≠ 0 := by
      intro h0
      exact h (by simp [h0])
    simp [List.length_range]
    omega

theorem inv_update_filter (lower : List Char → List Char) (a : App) :
    (App.update_filter lower a).Inv := by
  unfold App.update_filter App.Inv
  dsimp only
  set q := lower a.search_query with hq
  set fi := (a.files.enum.filter
      (fun p => q.isEmpty || strContains q (lower p.2.name))).map Prod.fst
    with hfi
  refine ⟨?_, ?_, ?_⟩
  · intro i hi
    rw [hfi] at hi
    simp only [List.mem_map, List.mem_filter] at hi
    obtain ⟨⟨i2, x⟩, ⟨hmem, _⟩, hfst⟩ := hi
    have hmem2 : (i2, x) ∈ a.files.enumFrom 0 := by
      simpa [List.enum] using hmem
    have h := List.mem_enumFrom hmem2
    simp only at hfst
    subst hfst
    omega
  · intro hnil
    rw [hnil]
    simp
  · intro hne
    split
    · exact List.length_pos.mpr hne
    · rename_i hgt
      omega

theorem inv_move_up {a : App} (h : a.Inv) : a.move_up.Inv := by
  obtain ⟨h1, h2, h3⟩ := h
  by_cases he : a.filtered_indices.isEmpty
  · simpa [App.move_up, he] using ⟨h1, h2, h3⟩
  · have hne : a.filtered_indices ≠ [] := by
      simpa [List.isEmpty_iff] using he
    have hlen : 0 < a.filtered_indices.length := by
      cases hq : a.filtered_indices.length with
      | zero => exact absurd (List.length_eq_zero.mp hq) hne
      | succ n => omega
    by_cases hs : 0 < a.selected_index
    · refine ⟨?_, ?_, ?_⟩ <;> simp only [App.move_up, he, hs, if_pos,
        if_neg, Bool.false_eq_true, if_false, if_true]
      · exact h1
      · intro hnil
        exact absurd hnil hne
      · intro _
        have := h3 hne
        omega
    · refine ⟨?_, ?_, ?_⟩ <;> simp only [App.move_up, he, hs,
        Bool.false_eq_true, if_false]
      · exact h1
      · intro hnil
        exact absurd hnil hne
      · intro _
        omega

theorem inv_move_down {a : App} (h : a.Inv) : a.move_down.Inv := by
  obtain ⟨h1, h2, h3⟩ := h
  by_cases he : a.filtered_indices.isEmpty
  · simpa [App.move_down, he] using ⟨h1, h2, h3⟩
  · have hne : a.filtered_indices ≠ [] := by
      simpa [List.isEmpty_iff] using he
    have hlen : 0 < a.filtered_indices.length := by
      cases hq : a.filtered_indices.length with
      | zero => exact absurd (List.length_eq_zero.mp hq) hne
      | succ n => omega
    by_cases hs : a.selected_index < a.filtered_indices.length - 1
    · refine ⟨?_, ?_, ?_⟩ <;> simp only [App.move_down, he, hs,
        Bool.false_eq_true, if_false, if_true]
      · exact h1
      · intro hnil
        exact absurd hnil hne
      · intro _
        omega
    · refine ⟨?_, ?_, ?_⟩ <;> simp only [App.move_down, he, hs,
        Bool.false_eq_true, if_false]
      · exact h1
      · intro hnil
        exact absurd hnil hne
      · intro _
        omega

theorem inv_refresh (a : App) (new_files : List TextFile) :
    (a.refresh_files new_files).1.Inv := by
  refine ⟨?_, ?_, ?_⟩
  · intro i hi
    simpa [App.refresh_files] using
      List.mem_range.mp (by simpa [App.refresh_files] using hi)
  · intro _
    rfl
  · intro h
    simp only [App.refresh_files] at h ⊢
    have : new_files.length ≠ 0 := by
      intro h0
      exact h (by simp [h0])
    simp [List.length_range]
    omega

theorem get_selected_isSome_iff {a : App} (h : a.Inv) :
    a.get_selected.isSome = true ↔ 0 < a.filtered_count := by
  obtain ⟨h1, _, h3⟩ := h
  unfold App.get_selected App.filtered_count
  cases hfe : a.filtered_indices with
  | nil => simp [hfe]
  | cons x xs =>
      have hne : a.filtered_indices ≠ [] := by simp [hfe]
      have hsel := h3 hne
      have hget := List.get?_eq_get hsel
      have hmem := List.get_mem a.filtered_indices a.selected_index hsel
      have hlt := h1 _ hmem
      have hfl := List.get?_eq_get hlt
      rw [← hfe, hget]
      simp only [Option.some_bind, hfl, Option.isSome_some, true_iff]
      omega

/-- C10: every `App` state reachable from `App::new` by the browser
operations satisfies the state invariant — all filtered indices are valid
file indices, and the selection is in range when the filtered list is
nonempty and pinned to 0 when it is empty — and consequently
`get_selected` answers `some` exactly when the filtered count is
positive. -/
theorem c10_browser_state_invariant (lower : List Char → List Char)
    (a : App) (h : Reachable lower a) :
    a.Inv ∧ (a.get_selected.isSome = true ↔ 0 < a.filtered_count) := by
  have hinv : a.Inv := by
    induction h with
    | new files => exact inv_new files
    | up _ ih => exact inv_move_up ih
    | down _ ih => exact inv_move_down ih
    | add c _ _ => exact inv_update_filter lower _
    | remove _ _ => exact inv_update_filter lower _
    | refresh new_files _ _ => exact inv_refresh _ new_files
  exact ⟨hinv, get_selected_isSome_iff hinv⟩

theorem c10_browser_state_invariant_witness :
    (App.new [⟨['a'], ["hi"]⟩]).Inv
      ∧ ((App.new [⟨['a'], ["hi"]⟩]).get_selected.isSome = true
          ↔ 0 < (App.new [⟨['a'], ["hi"]⟩]).filtered_count) :=
  c10_browser_state_invariant (fun q => q) (App.new [⟨['a'], ["hi"]⟩])
    (Reachable.new [⟨['a'], ["hi"]⟩])

end MadTyping
